import Mathlib

set_option maxRecDepth 16384

/-!
Shallow embedding of the `http-extend` request-augmentation transforms
(`src/index.ts`): `addBody`, `addXhr`, `addUrlObj`, `addCookies`.

JavaScript machinery that the source calls is modelled explicitly:
promise settlement over a one-shot event stream, `Buffer` values as byte
lists, the ECMAScript builtins `JSON.parse`, `decodeURIComponent`, the Node
builtins `querystring.parse` and the legacy `url.parse`, and JavaScript
string operations (`slice`, `indexOf`, `split` on the concrete regular
expressions appearing in the source).  Throwing builtins return `Option` /
`Except`; a `none` / `.error` result models a thrown exception.
-/

namespace HttpExtend

/-- Characters matched by `\s` in a JavaScript regular expression
(the common ones; used by the cookie split pattern `/;\s*/`). -/
def jsWs (c : Char) : Bool :=
  ([' ', '\t', '\n', '\r', '\x0b', '\x0c', '\xa0'] : List Char).contains c

/-- UTF-8 encoding of one Unicode scalar value (1 to 4 bytes). -/
def charUtf8 (c : Char) : List Nat :=
  let n := c.toNat
  if n < 0x80 then [n]
  else if n < 0x800 then [0xC0 + n / 64, 0x80 + n % 64]
  else if n < 0x10000 then [0xE0 + n / 4096, 0x80 + (n / 64) % 64, 0x80 + n % 64]
  else [0xF0 + n / 262144, 0x80 + (n / 4096) % 64, 0x80 + (n / 64) % 64, 0x80 + n % 64]

/-- Is `b` a UTF-8 continuation byte (`0x80..0xBF`)? -/
def isCont (b : Nat) : Bool := 0x80 ≤ b && b ≤ 0xBF

/-- Strict UTF-8 decoding of a byte list: `none` on any malformed, overlong
or surrogate-encoding sequence (this is the decoding `decodeURIComponent`
performs on the percent-decoded bytes, whose failure is a `URIError`). -/
def utf8Strict : List Nat → Option (List Char)
  | [] => some []
  | b :: rest =>
    if b ≤ 0x7F then
      (utf8Strict rest).map (Char.ofNat b :: ·)
    else if 0xC2 ≤ b && b ≤ 0xDF then
      match rest with
      | b2 :: r2 =>
        if isCont b2 then
          (utf8Strict r2).map (Char.ofNat ((b - 0xC0) * 64 + (b2 - 0x80)) :: ·)
        else none
      | [] => none
    else if 0xE0 ≤ b && b ≤ 0xEF then
      match rest with
      | b2 :: b3 :: r3 =>
        let okB2 : Bool :=
          if b == 0xE0 then 0xA0 ≤ b2 && b2 ≤ 0xBF
          else if b == 0xED then 0x80 ≤ b2 && b2 ≤ 0x9F
          else isCont b2
        if okB2 && isCont b3 then
          (utf8Strict r3).map
            (Char.ofNat ((b - 0xE0) * 4096 + (b2 - 0x80) * 64 + (b3 - 0x80)) :: ·)
        else none
      | _ => none
    else if 0xF0 ≤ b && b ≤ 0xF4 then
      match rest with
      | b2 :: b3 :: b4 :: r4 =>
        let okB2 : Bool :=
          if b == 0xF0 then 0x90 ≤ b2 && b2 ≤ 0xBF
          else if b == 0xF4 then 0x80 ≤ b2 && b2 ≤ 0x8F
          else isCont b2
        if okB2 && isCont b3 && isCont b4 then
          (utf8Strict r4).map
            (Char.ofNat ((b - 0xF0) * 262144 + (b2 - 0x80) * 4096 +
              (b3 - 0x80) * 64 + (b4 - 0x80)) :: ·)
        else none
      | _ => none
    else none

/-- Worker for `utf8Lossy`: the fuel argument (initialized to the byte
count, of which every step consumes at least one) makes the recursion
structural. -/
def utf8LossyAux : Nat → List Nat → List Char
  | 0, _ => []
  | _, [] => []
  | fuel + 1, b :: rest =>
    if b ≤ 0x7F then Char.ofNat b :: utf8LossyAux fuel rest
    else if 0xC2 ≤ b && b ≤ 0xDF then
      match rest with
      | b2 :: r2 =>
        if isCont b2 then Char.ofNat ((b - 0xC0) * 64 + (b2 - 0x80)) :: utf8LossyAux fuel r2
        else '�' :: utf8LossyAux fuel rest
      | [] => ['�']
    else if 0xE0 ≤ b && b ≤ 0xEF then
      match rest with
      | b2 :: b3 :: r3 =>
        let okB2 : Bool :=
          if b == 0xE0 then 0xA0 ≤ b2 && b2 ≤ 0xBF
          else if b == 0xED then 0x80 ≤ b2 && b2 ≤ 0x9F
          else isCont b2
        if okB2 && isCont b3 then
          Char.ofNat ((b - 0xE0) * 4096 + (b2 - 0x80) * 64 + (b3 - 0x80)) :: utf8LossyAux fuel r3
        else '�' :: utf8LossyAux fuel rest
      | _ => '�' :: utf8LossyAux fuel rest
    else if 0xF0 ≤ b && b ≤ 0xF4 then
      match rest with
      | b2 :: b3 :: b4 :: r4 =>
        let okB2 : Bool :=
          if b == 0xF0 then 0x90 ≤ b2 && b2 ≤ 0xBF
          else if b == 0xF4 then 0x80 ≤ b2 && b2 ≤ 0x8F
          else isCont b2
        if okB2 && isCont b3 && isCont b4 then
          Char.ofNat ((b - 0xF0) * 262144 + (b2 - 0x80) * 4096 +
            (b3 - 0x80) * 64 + (b4 - 0x80)) :: utf8LossyAux fuel r4
        else '�' :: utf8LossyAux fuel rest
      | _ => '�' :: utf8LossyAux fuel rest
    else '�' :: utf8LossyAux fuel rest

/-- Lossy UTF-8 decoding of a byte list, as performed by Node's
`Buffer.prototype.toString('utf8')`: malformed bytes become U+FFFD
replacement characters instead of failing.  (The exact number of
replacement characters emitted for a malformed run may differ from Node's;
no property proved here depends on that.) -/
def utf8Lossy (bs : List Nat) : List Char := utf8LossyAux bs.length bs

/-- Node `Buffer.prototype.toString('utf8')`: lossy UTF-8 decode of the
buffer's bytes (never throws). -/
def bufToString (bs : List Nat) : String := ⟨utf8Lossy bs⟩

/-- Value of a hexadecimal digit character, if it is one (digit characters
sit at codes 48-57, the lowercase letters a-f at 97-102, the uppercase
A-F at 65-70). -/
def hexVal (c : Char) : Option Nat :=
  let n := c.toNat
  if 48 ≤ n ∧ n ≤ 57 then some (n - 48)
  else if 97 ≤ n ∧ n ≤ 102 then some (n - 87)
  else if 65 ≤ n ∧ n ≤ 70 then some (n - 55)
  else none

/-- Percent-decode a character list to bytes: `%HH` becomes the byte `HH`,
every other character contributes its UTF-8 bytes.  `none` models the
`URIError` thrown on a `%` that is not followed by two hex digits. -/
def pctBytes : List Char → Option (List Nat)
  | [] => some []
  | '%' :: rest =>
    match rest with
    | h1 :: h2 :: r2 =>
      match hexVal h1, hexVal h2 with
      | some a, some b => (pctBytes r2).map ((16 * a + b) :: ·)
      | _, _ => none
    | _ => none
  | c :: rest => (pctBytes rest).map (charUtf8 c ++ ·)

/-- Model of the ECMAScript builtin `decodeURIComponent`: percent-decode,
then strictly UTF-8-decode the resulting bytes.  `none` models the
`URIError` thrown on a malformed escape sequence or invalid UTF-8. -/
def decodeURIComponent (s : String) : Option String :=
  ((pctBytes s.toList).bind utf8Strict).map (⟨·⟩)

/-- Does the character list `p` occur at the head of `t`? -/
def listHasPre : List Char → List Char → Bool
  | [], _ => true
  | _ :: _, [] => false
  | p :: ps, t :: ts => p == t && listHasPre ps ts

/-- Does the character list `p` occur contiguously anywhere inside `t`? -/
def listHasMid (p : List Char) : List Char → Bool
  | [] => listHasPre p []
  | t :: ts => listHasPre p (t :: ts) || listHasMid p ts

/-- Case-sensitive substring test, modelling a JavaScript regular-expression
`test` whose pattern is a plain literal (no `i` flag). -/
def containsSubstr (text pat : String) : Bool :=
  listHasMid pat.toList text.toList

/-- ASCII-lowercase a character list. -/
def lowerChars (cs : List Char) : List Char := cs.map Char.toLower

/-- Case-insensitive substring test, modelling a JavaScript
regular-expression `test` with the `i` flag and an all-ASCII literal
pattern: both sides are ASCII-lowercased and compared. -/
def containsCI (text pat : String) : Bool :=
  listHasMid (lowerChars pat.toList) (lowerChars text.toList)

/-- Model of the JavaScript regular expression test `/\.json$/.test(u)`:
true exactly when the string ends with the five characters `.json`. -/
def endsWithDotJson (u : String) : Bool :=
  match u.toList.reverse with
  | 'n' :: 'o' :: 's' :: 'j' :: '.' :: _ => true
  | _ => false

/-- Normalize one JavaScript `slice` index against a length: negative
indices count from the end and everything is clamped to `[0, len]`. -/
def jsSliceIdx (len : Nat) (i : Int) : Nat :=
  (max 0 (if i < 0 then (len : Int) + i else min i (len : Int))).toNat

/-- JavaScript `String.prototype.slice(start, stop)` (character-level; the
source only slices ASCII cookie text, where JavaScript's UTF-16 units and
characters agree). -/
def jsSlice (s : String) (start stop : Int) : String :=
  let cs := s.toList
  let a := jsSliceIdx cs.length start
  let b := jsSliceIdx cs.length stop
  ⟨(cs.drop a).take (b - a)⟩

/-- JavaScript `String.prototype.slice(start)` with no stop argument. -/
def jsSliceFrom (s : String) (start : Int) : String :=
  let cs := s.toList
  ⟨cs.drop (jsSliceIdx cs.length start)⟩

/-- JavaScript `String.prototype.indexOf` for a single character:
the index of its first occurrence, or `-1`. -/
def jsIndexOfChar (s : String) (c : Char) : Int :=
  match s.toList.findIdx? (· == c) with
  | some i => (i : Int)
  | none => -1

/-- JavaScript-object insertion semantics: assigning to an existing key
replaces its value in place, assigning a fresh key appends it. -/
def objSet {α : Type} (m : List (String × α)) (k : String) (v : α) : List (String × α) :=
  if m.any (fun p => p.1 == k) then
    m.map (fun p => if p.1 == k then (p.1, v) else p)
  else m ++ [(k, v)]

/-- JSON whitespace characters (ECMA-404 / `JSON.parse`). -/
def jsonWsChar (c : Char) : Bool :=
  ([' ', '\t', '\n', '\r'] : List Char).contains c

/-- Drop leading JSON whitespace. -/
def skipWs (cs : List Char) : List Char := cs.dropWhile jsonWsChar

/-- Structured values produced by `JSON.parse`.  Numbers are kept as their
source lexeme, so that no floating-point semantics needs to be modelled;
no claim of this development depends on numeric value identity. -/
inductive JsValue where
  | null
  | bool (b : Bool)
  | num (lexeme : String)
  | str (s : String)
  | arr (elems : List JsValue)
  | obj (members : List (String × JsValue))

/-- Helper: prepend a character to the first component of a successful
string-literal parse. -/
def consFst (c : Char) :
    Except String (List Char × List Char) → Except String (List Char × List Char)
  | Except.ok (cs, rest) => Except.ok (c :: cs, rest)
  | Except.error e => Except.error e

/-- Worker for `parseStrChars`, fuelled to keep the recursion structural
(every step consumes at least one input character). -/
def parseStrCharsAux : Nat → List Char → Except String (List Char × List Char)
  | 0, _ => Except.error "Unterminated string in JSON"
  | _, [] => Except.error "Unterminated string in JSON"
  | fuel + 1, c :: rest =>
    if c == '"' then Except.ok ([], rest)
    else if c == '\\' then
      match rest with
      | [] => Except.error "Unterminated string in JSON"
      | e :: r2 =>
        if e == '"' then consFst '"' (parseStrCharsAux fuel r2)
        else if e == '\\' then consFst '\\' (parseStrCharsAux fuel r2)
        else if e == '/' then consFst '/' (parseStrCharsAux fuel r2)
        else if e == 'b' then consFst '\x08' (parseStrCharsAux fuel r2)
        else if e == 'f' then consFst '\x0c' (parseStrCharsAux fuel r2)
        else if e == 'n' then consFst '\n' (parseStrCharsAux fuel r2)
        else if e == 'r' then consFst '\r' (parseStrCharsAux fuel r2)
        else if e == 't' then consFst '\t' (parseStrCharsAux fuel r2)
        else if e == 'u' then
          match r2 with
          | h1 :: h2 :: h3 :: h4 :: r3 =>
            match hexVal h1, hexVal h2, hexVal h3, hexVal h4 with
            | some a, some b, some c2, some d =>
              let n := ((a * 16 + b) * 16 + c2) * 16 + d
              if 0xD800 ≤ n ∧ n ≤ 0xDBFF then
                match r3 with
                | '\\' :: 'u' :: g1 :: g2 :: g3 :: g4 :: r4 =>
                  match hexVal g1, hexVal g2, hexVal g3, hexVal g4 with
                  | some w, some x, some y, some z =>
                    let m := ((w * 16 + x) * 16 + y) * 16 + z
                    if 0xDC00 ≤ m ∧ m ≤ 0xDFFF then
                      consFst (Char.ofNat (0x10000 + (n - 0xD800) * 1024 + (m - 0xDC00)))
                        (parseStrCharsAux fuel r4)
                    else consFst '�' (parseStrCharsAux fuel r3)
                  | _, _, _, _ => consFst '�' (parseStrCharsAux fuel r3)
                | _ => consFst '�' (parseStrCharsAux fuel r3)
              else if 0xDC00 ≤ n ∧ n ≤ 0xDFFF then consFst '�' (parseStrCharsAux fuel r3)
              else consFst (Char.ofNat n) (parseStrCharsAux fuel r3)
            | _, _, _, _ => Except.error "Bad Unicode escape in JSON"
          | _ => Except.error "Bad Unicode escape in JSON"
        else Except.error "Bad escaped character in JSON"
    else if c.toNat < 0x20 then Except.error "Bad control character in JSON"
    else consFst c (parseStrCharsAux fuel rest)

/-- Parse the remainder of a JSON string literal (the opening quote already
consumed), handling the JSON escape sequences including `\uXXXX` and
surrogate pairs.  A lone surrogate becomes U+FFFD (JavaScript strings would
keep the lone UTF-16 unit, which a Lean `Char` cannot represent; no claim
exercises lone surrogates). -/
def parseStrChars (cs : List Char) : Except String (List Char × List Char) :=
  parseStrCharsAux (cs.length + 1) cs

/-- Parse a JSON number starting at `cs` (ECMA-404 grammar: optional minus,
integer part without leading zeros, optional fraction, optional exponent),
returning its lexeme. -/
def parseNumber (cs : List Char) : Except String (JsValue × List Char) :=
  let p := match cs with
    | '-' :: r => (['-'], r)
    | _ => (([] : List Char), cs)
  let negChars := p.1
  let cs1 := p.2
  match cs1 with
  | [] => Except.error "Unexpected end of JSON input"
  | d :: _ =>
    if !d.isDigit then Except.error "Unexpected token in JSON"
    else
      let ips := cs1.span (·.isDigit)
      let ip := ips.1
      let cs2 := ips.2
      if ip.length > 1 && ip.headD '0' == '0' then Except.error "Unexpected token in JSON"
      else
        let fracRes : Option (List Char × List Char) :=
          match cs2 with
          | '.' :: r =>
            let fps := r.span (·.isDigit)
            if fps.1.isEmpty then none else some ('.' :: fps.1, fps.2)
          | _ => some ([], cs2)
        match fracRes with
        | none => Except.error "Unexpected token in JSON"
        | some (fracChars, cs3) =>
          let expRes : Option (List Char × List Char) :=
            match cs3 with
            | e :: r =>
              if e == 'e' || e == 'E' then
                let sp := match r with
                  | '+' :: rr => ((['+'] : List Char), rr)
                  | '-' :: rr => ((['-'] : List Char), rr)
                  | _ => (([] : List Char), r)
                let eps := sp.2.span (·.isDigit)
                if eps.1.isEmpty then none else some (e :: (sp.1 ++ eps.1), eps.2)
              else some ([], cs3)
            | [] => some ([], cs3)
          match expRes with
          | none => Except.error "Unexpected token in JSON"
          | some (expChars, cs4) =>
            Except.ok (JsValue.num ⟨negChars ++ ip ++ fracChars ++ expChars⟩, cs4)

/-- Work items of the JSON parser: a value, or the continuation of a
partially parsed array or object. -/
inductive JTask where
  | val
  | arrRest (acc : List JsValue)
  | objMember (acc : List (String × JsValue))
  | objRest (acc : List (String × JsValue))

/-- Recursive-descent JSON parser over a character list, fuelled so the
recursion is structural.  Each recursive call consumes at least one input
character, so fuel of twice the input length plus a constant never runs
out on real input.  Duplicate object keys follow `JSON.parse`: the later
value wins, at the key's first position. -/
def parseJ : Nat → JTask → List Char → Except String (JsValue × List Char)
  | 0, _, _ => Except.error "JSON input too deeply nested"
  | fuel + 1, JTask.val, cs =>
    match skipWs cs with
    | [] => Except.error "Unexpected end of JSON input"
    | c :: rest =>
      if c == '"' then
        match parseStrChars rest with
        | Except.error e => Except.error e
        | Except.ok (chars, r) => Except.ok (JsValue.str ⟨chars⟩, r)
      else if c == '{' then
        match skipWs rest with
        | [] => Except.error "Unexpected end of JSON input"
        | d :: r3 =>
          if d == '}' then Except.ok (JsValue.obj [], r3)
          else parseJ fuel (JTask.objMember []) (d :: r3)
      else if c == '[' then
        match skipWs rest with
        | [] => Except.error "Unexpected end of JSON input"
        | d :: r3 =>
          if d == ']' then Except.ok (JsValue.arr [], r3)
          else
            match parseJ fuel JTask.val (d :: r3) with
            | Except.error e => Except.error e
            | Except.ok (v, r4) => parseJ fuel (JTask.arrRest [v]) r4
      else if c == 't' then
        match rest with
        | 'r' :: 'u' :: 'e' :: r => Except.ok (JsValue.bool true, r)
        | _ => Except.error "Unexpected token in JSON"
      else if c == 'f' then
        match rest with
        | 'a' :: 'l' :: 's' :: 'e' :: r => Except.ok (JsValue.bool false, r)
        | _ => Except.error "Unexpected token in JSON"
      else if c == 'n' then
        match rest with
        | 'u' :: 'l' :: 'l' :: r => Except.ok (JsValue.null, r)
        | _ => Except.error "Unexpected token in JSON"
      else if c == '-' || c.isDigit then parseNumber (c :: rest)
      else Except.error "Unexpected token in JSON"
  | fuel + 1, JTask.arrRest acc, cs =>
    match skipWs cs with
    | [] => Except.error "Unexpected end of JSON input"
    | c :: rest =>
      if c == ']' then Except.ok (JsValue.arr acc, rest)
      else if c == ',' then
        match parseJ fuel JTask.val rest with
        | Except.error e => Except.error e
        | Except.ok (v, r) => parseJ fuel (JTask.arrRest (acc ++ [v])) r
      else Except.error "Unexpected token in JSON"
  | fuel + 1, JTask.objMember acc, cs =>
    match skipWs cs with
    | [] => Except.error "Unexpected end of JSON input"
    | c :: rest =>
      if c == '"' then
        match parseStrChars rest with
        | Except.error e => Except.error e
        | Except.ok (kcs, r) =>
          match skipWs r with
          | ':' :: r2 =>
            match parseJ fuel JTask.val r2 with
            | Except.error e => Except.error e
            | Except.ok (v, r3) => parseJ fuel (JTask.objRest (objSet acc (⟨kcs⟩ : String) v)) r3
          | _ => Except.error "Unexpected token in JSON"
      else Except.error "Unexpected token in JSON"
  | fuel + 1, JTask.objRest acc, cs =>
    match skipWs cs with
    | [] => Except.error "Unexpected end of JSON input"
    | c :: rest =>
      if c == '}' then Except.ok (JsValue.obj acc, rest)
      else if c == ',' then parseJ fuel (JTask.objMember acc) rest
      else Except.error "Unexpected token in JSON"

/-- Model of the ECMAScript builtin `JSON.parse`: parse one JSON value,
then require only whitespace to remain.  The `.error` result carries the
decode error message and models the thrown `SyntaxError`. -/
def jsonParse (s : String) : Except String JsValue :=
  match parseJ (2 * s.length + 16) JTask.val s.toList with
  | Except.error e => Except.error e
  | Except.ok (v, rest) =>
    if (skipWs rest).isEmpty then Except.ok v
    else Except.error "Unexpected non-whitespace character after JSON data"

/-- A value of Node's `querystring.parse` mapping: a single string, or the
list collected for a repeated key. -/
inductive QsVal where
  | one (s : String)
  | many (l : List String)

/-- Replace `+` with a space, as `querystring.parse` does on each raw
key/value before unescaping it. -/
def plusToSpace (s : String) : String :=
  ⟨s.toList.map (fun c => if c == '+' then ' ' else c)⟩

/-- Worker for `unescapeBytes`, fuelled to keep the recursion structural. -/
def unescapeBytesAux : Nat → List Char → List Nat
  | 0, _ => []
  | _, [] => []
  | fuel + 1, '%' :: rest =>
    match rest with
    | h1 :: h2 :: r2 =>
      match hexVal h1, hexVal h2 with
      | some a, some b => (16 * a + b) :: unescapeBytesAux fuel r2
      | _, _ => '%'.toNat :: unescapeBytesAux fuel rest
    | _ => '%'.toNat :: unescapeBytesAux fuel rest
  | fuel + 1, c :: rest => (c.toNat % 256) :: unescapeBytesAux fuel rest

/-- Byte-level fallback decoder of Node's internal `unescapeBuffer`:
`%HH` becomes the byte `HH`, a malformed `%` stays literal, every other
character contributes its low char-code byte; it never fails. -/
def unescapeBytes (cs : List Char) : List Nat :=
  unescapeBytesAux (3 * cs.length + 3) cs

/-- Model of Node's `querystring.unescape`: try `decodeURIComponent` and on
a `URIError` fall back to the permissive `unescapeBuffer` decoding — hence
it never fails. -/
def qsUnescape (s : String) : String :=
  match decodeURIComponent s with
  | some t => t
  | none => bufToString (unescapeBytes s.toList)

/-- Add one parsed key/value pair to a `querystring.parse` mapping:
repeated keys collect their values into a list. -/
def qsAdd (m : List (String × QsVal)) (k v : String) : List (String × QsVal) :=
  if m.any (fun p => p.1 == k) then
    m.map (fun p =>
      if p.1 == k then
        (p.1, match p.2 with
          | QsVal.one s => QsVal.many [s, v]
          | QsVal.many l => QsVal.many (l ++ [v]))
      else p)
  else m ++ [(k, QsVal.one v)]

/-- Split a character list on every occurrence of the character `c`. -/
def splitChar (c : Char) : List Char → List Char → List (List Char)
  | [], acc => [acc.reverse]
  | x :: rest, acc =>
    if x == c then acc.reverse :: splitChar c rest []
    else splitChar c rest (x :: acc)

/-- Model of the Node builtin `querystring.parse` with its default
separators: split on `&` skipping empty segments, split each segment at
its first `=` (a segment without `=` is a key with empty value), replace
`+` by space and permissively unescape both key and value, and collect
repeated keys into a list.  It is total: no input fails.  (Node's default
cap of 1000 parsed pairs is not modelled; no claim involves it.) -/
def parseQuerystring (s : String) : List (String × QsVal) :=
  (((splitChar '&' s.toList []).map (String.mk ·)).filter (· ≠ "")).foldl
    (fun m seg =>
      let seg' := plusToSpace seg
      let i := jsIndexOfChar seg' '='
      let key := if i < 0 then seg' else jsSlice seg' 0 i
      let v := if i < 0 then "" else jsSliceFrom seg' (i + 1)
      qsAdd m (qsUnescape key) (qsUnescape v))
    []

/-- A header value as exposed by Node's `IncomingMessage#headers`: a single
string, or a list of strings for a header that arrived multiple times. -/
inductive HeaderValue where
  | one (s : String)
  | many (l : List String)

/-- Events of the one-shot readable byte stream of a request: zero or more
`data` chunks interleaved with at most one effective terminal event. -/
inductive StreamEvent where
  | data (chunk : List Nat)
  | endEv
  | errorEv (cause : String)

/-- The request fields read by the transforms of `src/index.ts`:
`headers['content-type']`, `headers['x-requested-with']`,
`headers['accept']`, `headers.cookie` (the one header the source handles
as possibly list-valued), the raw URL, and the body byte stream. -/
structure Request where
  contentType : Option String
  xRequestedWith : Option String
  accept : Option String
  cookie : Option HeaderValue
  url : String
  stream : List StreamEvent

/-- Settlement of the promise built in `addBody`: process stream events in
order, appending `data` chunks to the accumulator; the first terminal
event wins — `end` resolves with the concatenated buffer, `error` rejects
with the cause.  `none` means the promise never settles (no terminal
event). -/
def readBody : List StreamEvent → List Nat → Option (Except String (List Nat))
  | [], _ => none
  | StreamEvent.data c :: rest, acc => readBody rest (acc ++ c)
  | StreamEvent.endEv :: _, acc => some (Except.ok acc)
  | StreamEvent.errorEv e :: _, _ => some (Except.error e)

/-- The decoded body attached by `addBody`: the absent marker (JavaScript
`undefined` for an empty JSON-typed body), a parsed JSON value, a parsed
querystring mapping, or the raw byte buffer. -/
inductive Body where
  | absent
  | json (v : JsValue)
  | form (m : List (String × QsVal))
  | raw (bytes : List Nat)

/-- The two rejection kinds of `addBody`'s promise: `StreamError` is the
rejection with the stream's error-event cause (passed through unchanged by
`reject`), `BodyParseError` is the rejection with the `SyntaxError` thrown
by `JSON.parse`, whose raw message it carries. -/
inductive BodyError where
  | StreamError (cause : String)
  | BodyParseError (message : String)

/-- `req.headers['content-type'] || ''`: the content type defaulted to the
empty string when the header is absent. -/
def ctStr (req : Request) : String := req.contentType.getD ""

/-- The JSON arm of `addBody`'s dispatch, line 29 of `src/index.ts`:
`(data.length > 0) ? JSON.parse(data.toString('utf8')) : undefined`. -/
def jsonBranch (data : List Nat) : Except BodyError Body :=
  if 0 < data.length then
    match jsonParse (bufToString data) with
    | Except.ok v => Except.ok (Body.json v)
    | Except.error msg => Except.error (BodyError.BodyParseError msg)
  else Except.ok Body.absent

/-- The content-type dispatch of `addBody` (lines 27-34 of `src/index.ts`):
`/application\/json/i` first, then `/application\/x-www-form-urlencoded/i`,
else the raw buffer. -/
def decodeBody (ct : String) (data : List Nat) : Except BodyError Body :=
  if containsCI ct "application/json" then jsonBranch data
  else if containsCI ct "application/x-www-form-urlencoded" then
    Except.ok (Body.form (parseQuerystring (bufToString data)))
  else Except.ok (Body.raw data)

/-- `addBody` (lines 15-37 of `src/index.ts`): settle the stream promise,
then decode; a stream error rejects with its cause before any decoding,
and the decoded body (or `JSON.parse` rejection) is produced otherwise.
`none` models a never-settling promise. -/
def addBody (req : Request) : Option (Except BodyError Body) :=
  match readBody req.stream [] with
  | none => none
  | some (Except.error cause) => some (Except.error (BodyError.StreamError cause))
  | some (Except.ok data) => some (decodeBody (ctStr req) data)

/-- The string the `accept` header coerces to inside
`/text\/html/.test(req.headers['accept'])`: an absent header is the
JavaScript `undefined`, which `test` coerces to the string `"undefined"`. -/
def acceptCoerced (req : Request) : String :=
  match req.accept with
  | some a => a
  | none => "undefined"

/-- `addXhr` (lines 49-55 of `src/index.ts`): the `xhr` boolean. -/
def addXhr (req : Request) : Bool :=
  (req.xRequestedWith == some "XMLHttpRequest") || endsWithDotJson req.url ||
    !(containsSubstr (acceptCoerced req) "text/html")

/-- The cookie header string actually split by `addCookies`: `none` when
the header is absent or falsy (the empty string), the strings joined with
`;` when the header arrived as a list. -/
def cookieHeaderStr (req : Request) : Option String :=
  match req.cookie with
  | none => none
  | some (HeaderValue.one s) => if s == "" then none else some s
  | some (HeaderValue.many l) => some (String.intercalate ";" l)

/-- Worker for `splitSemiWs`: the flag records whether we are inside the
`\s*` run following a `;`. -/
def splitSemiAux : Bool → List Char → List Char → List (List Char)
  | _, [], acc => [acc.reverse]
  | skipping, c :: rest, acc =>
    if skipping && jsWs c then splitSemiAux true rest acc
    else if c == ';' then acc.reverse :: splitSemiAux true rest []
    else splitSemiAux false rest (c :: acc)

/-- Model of `cookieHeaderString.split(/;\s*/)`: split on each `;` together
with the whitespace run following it. -/
def splitSemiWs (s : String) : List String :=
  (splitSemiAux false s.toList []).map (⟨·⟩)

/-- The body of the `forEach` in `addCookies` (lines 97-100 of
`src/index.ts`) for one cookie segment: `splitAt = indexOf('=')`,
`name = slice(0, splitAt)`, `value = slice(splitAt + 1)`, then
`decodeURIComponent(value)` — whose `URIError` (`none`) propagates. -/
def cookiePair (s : String) : Option (String × String) :=
  let i := jsIndexOfChar s '='
  let name := jsSlice s 0 i
  let value := jsSliceFrom s (i + 1)
  (decodeURIComponent value).map (fun d => (name, d))

/-- `addCookies` (lines 89-104 of `src/index.ts`): absent or falsy cookie
header gives the empty mapping, otherwise each segment of the split header
is parsed and assigned into the cookie object (later duplicate names
overwrite).  `none` models the `URIError` thrown out of the `forEach`. -/
def addCookies (req : Request) : Option (List (String × String)) :=
  match cookieHeaderStr req with
  | none => some []
  | some hs =>
    (splitSemiWs hs).foldlM
      (fun m seg => (cookiePair seg).map (fun p => objSet m p.1 p.2)) []

/-- `String.mk` undoes `String.toList`. -/
theorem mk_toList (s : String) : String.mk s.toList = s := by
  cases s
  rfl

/-- A nonempty string has a nonempty character list. -/
theorem toList_ne_nil (s : String) (h : s ≠ "") : s.toList ≠ [] := by
  intro hl
  apply h
  cases s with
  | mk cs =>
    have hcs : cs = [] := by simpa [String.toList] using hl
    rw [hcs]

/-- Characterization of `listHasPre`: the pattern is a prefix of the text. -/
theorem listHasPre_iff : ∀ (p t : List Char), listHasPre p t = true ↔ ∃ r, t = p ++ r
  | [], t => by simp [listHasPre]
  | c :: ps, [] => by simp [listHasPre]
  | c :: ps, d :: ts => by
    simp only [listHasPre, Bool.and_eq_true, beq_iff_eq, listHasPre_iff ps ts,
      List.cons_append]
    constructor
    · rintro ⟨hcd, r, hr⟩
      subst hcd
      exact ⟨r, by rw [hr]⟩
    · rintro ⟨r, hr⟩
      injection hr with h1 h2
      exact ⟨h1.symm, r, h2⟩

/-- Characterization of `listHasMid`: the pattern occurs contiguously
inside the text. -/
theorem listHasMid_iff : ∀ (p t : List Char), listHasMid p t = true ↔ ∃ l r, t = l ++ (p ++ r)
  | p, [] => by
    simp only [listHasMid, listHasPre_iff]
    constructor
    · rintro ⟨r, hr⟩
      exact ⟨[], r, by simpa using hr⟩
    · rintro ⟨l, r, hr⟩
      have h3 := (List.append_eq_nil.mp hr.symm)
      exact ⟨r, by rw [h3.2]⟩
  | p, c :: ts => by
    simp only [listHasMid, Bool.or_eq_true, listHasPre_iff, listHasMid_iff p ts]
    constructor
    · rintro (⟨r, hr⟩ | ⟨l, r, hr⟩)
      · exact ⟨[], r, by simpa using hr⟩
      · exact ⟨c :: l, r, by simp [hr]⟩
    · rintro ⟨l, r, hr⟩
      cases l with
      | nil => exact Or.inl ⟨r, by simpa using hr⟩
      | cons x xs =>
        injection hr with h1 h2
        exact Or.inr ⟨xs, r, h2⟩

/-- Characterization of the case-insensitive substring dispatch test. -/
theorem containsCI_iff (text pat : String) :
    containsCI text pat = true ↔
      ∃ l r, lowerChars text.toList = l ++ (lowerChars pat.toList ++ r) :=
  listHasMid_iff (lowerChars pat.toList) (lowerChars text.toList)

/-- Characterization of the `/\.json$/` test: the URL's characters end in
`.json`. -/
theorem endsWithDotJson_iff (u : String) :
    endsWithDotJson u = true ↔ ∃ pre, u.toList = pre ++ ['.', 'j', 's', 'o', 'n'] := by
  constructor
  · intro h
    unfold endsWithDotJson at h
    split at h
    · rename_i tl heq
      refine ⟨tl.reverse, ?_⟩
      have h2 := congrArg List.reverse heq
      simpa using h2
    · exact absurd h (by simp)
  · rintro ⟨pre, hp⟩
    unfold endsWithDotJson
    rw [hp, List.reverse_append]
    rfl

/-- A run of `data` chunks followed by an `error` event settles the body
promise with the error's cause, regardless of the accumulated bytes. -/
theorem readBody_error (cause : String) :
    ∀ (ds : List (List Nat)) (rest : List StreamEvent) (acc : List Nat),
      readBody (ds.map StreamEvent.data ++ StreamEvent.errorEv cause :: rest) acc
        = some (Except.error cause)
  | [], _, _ => rfl
  | d :: ds, rest, acc => by
    simp only [List.map_cons, List.cons_append, readBody]
    exact readBody_error cause ds rest (acc ++ d)

/-- C1: a request whose content type contains "application/json"
(case-insensitively) and whose accumulated buffer is empty resolves with
the absent marker — never an error, and distinguishable from the JSON
values `null` and the empty string (and from every JSON value). -/
theorem c1_json_empty_body_absent (req : Request)
    (hstream : readBody req.stream [] = some (Except.ok []))
    (hct : containsCI (ctStr req) "application/json" = true) :
    addBody req = some (Except.ok Body.absent) ∧
      (∀ v, Body.absent ≠ Body.json v) := by
  refine ⟨?_, fun v h => by cases h⟩
  unfold addBody
  rw [hstream]
  simp [decodeBody, hct, jsonBranch]

/-- C1 witness at a concrete request: json content type (mixed case),
stream ending with no data. -/
theorem c1_witness :
    addBody ⟨some "Application/JSON; charset=utf-8", none, none, none, "/w1",
        [StreamEvent.endEv]⟩ = some (Except.ok Body.absent) :=
  (c1_json_empty_body_absent
    ⟨some "Application/JSON; charset=utf-8", none, none, none, "/w1", [StreamEvent.endEv]⟩
    rfl (by decide)).1

/-- C2: for a json-typed nonempty body, a `JSON.parse` failure rejects with
`BodyParseError` carrying the raw decode error message, a success resolves
with the exact parsed structured value; and a `BodyParseError` rejection
only ever arises on the json dispatch branch (so its content type is
"json"). -/
theorem c2_json_parse_result :
    (∀ (req : Request) (data : List Nat),
      readBody req.stream [] = some (Except.ok data) →
      containsCI (ctStr req) "application/json" = true →
      0 < data.length →
      (∀ msg, jsonParse (bufToString data) = Except.error msg →
        addBody req = some (Except.error (BodyError.BodyParseError msg))) ∧
      (∀ v, jsonParse (bufToString data) = Except.ok v →
        addBody req = some (Except.ok (Body.json v)))) ∧
    (∀ (req : Request) (msg : String),
      addBody req = some (Except.error (BodyError.BodyParseError msg)) →
      containsCI (ctStr req) "application/json" = true) := by
  constructor
  · intro req data hstream hct hlen
    constructor
    · intro msg hmsg
      unfold addBody
      rw [hstream]
      simp [decodeBody, hct, jsonBranch, hlen, hmsg]
    · intro v hv
      unfold addBody
      rw [hstream]
      simp [decodeBody, hct, jsonBranch, hlen, hv]
  · intro req msg h
    unfold addBody at h
    cases hs : readBody req.stream [] with
    | none => rw [hs] at h; simp at h
    | some r =>
      rw [hs] at h
      cases r with
      | error c => simp at h
      | ok data =>
        simp only [Option.some.injEq] at h
        by_cases hct : containsCI (ctStr req) "application/json" = true
        · exact hct
        · exfalso
          rw [Bool.not_eq_true] at hct
          by_cases hf : containsCI (ctStr req) "application/x-www-form-urlencoded" = true
          · simp [decodeBody, hct, hf] at h
          · rw [Bool.not_eq_true] at hf
            simp [decodeBody, hct, hf] at h

/-- C2 witness: body `{bad` fails with the parser's raw message. -/
theorem c2_witness :
    addBody ⟨some "application/json", none, none, none, "/w2",
        [StreamEvent.data [123, 98, 97, 100], StreamEvent.endEv]⟩
      = some (Except.error (BodyError.BodyParseError "Unexpected token in JSON")) :=
  (c2_json_parse_result.1
    ⟨some "application/json", none, none, none, "/w2",
      [StreamEvent.data [123, 98, 97, 100], StreamEvent.endEv]⟩
    [123, 98, 97, 100] rfl (by decide) (by decide)).1 _ rfl

/-- C3: an `error` event (here after any run of data chunks) rejects the
body promise with `StreamError` carrying the underlying cause; the bytes
accumulated so far are discarded and nothing is decoded — the result does
not depend on the chunks, the content type, or later events. -/
theorem c3_stream_error (req : Request) (ds : List (List Nat)) (cause : String)
    (rest : List StreamEvent)
    (hstream : req.stream = ds.map StreamEvent.data ++ StreamEvent.errorEv cause :: rest) :
    addBody req = some (Except.error (BodyError.StreamError cause)) := by
  unfold addBody
  rw [hstream, readBody_error]

/-- C3 witness: data arrives, then the stream errors; the accumulated
chunk is discarded and the cause is propagated. -/
theorem c3_witness :
    addBody ⟨some "application/json", none, none, none, "/w3",
        [StreamEvent.data [104, 105], StreamEvent.errorEv "boom", StreamEvent.endEv]⟩
      = some (Except.error (BodyError.StreamError "boom")) :=
  c3_stream_error
    ⟨some "application/json", none, none, none, "/w3",
      [StreamEvent.data [104, 105], StreamEvent.errorEv "boom", StreamEvent.endEv]⟩
    [[104, 105]] "boom" [StreamEvent.endEv] rfl

/-- C4: a request matching neither content-type pattern resolves with the
raw accumulated buffer, byte for byte, and never fails; an absent
content-type header is treated as the empty string, which matches neither
pattern. -/
theorem c4_unrecognized_raw (req : Request) (data : List Nat)
    (hstream : readBody req.stream [] = some (Except.ok data))
    (hj : containsCI (ctStr req) "application/json" = false)
    (hf : containsCI (ctStr req) "application/x-www-form-urlencoded" = false) :
    addBody req = some (Except.ok (Body.raw data)) ∧
    (∀ r : Request, r.contentType = none →
      containsCI (ctStr r) "application/json" = false ∧
      containsCI (ctStr r) "application/x-www-form-urlencoded" = false) := by
  constructor
  · unfold addBody
    rw [hstream]
    simp [decodeBody, hj, hf]
  · intro r h
    rw [show ctStr r = "" by simp [ctStr, h]]
    exact ⟨by decide, by decide⟩

/-- C4 witness: an unrelated content type yields the raw bytes. -/
theorem c4_witness :
    addBody ⟨some "text/plain", none, none, none, "/w4",
        [StreamEvent.data [1, 2, 3], StreamEvent.endEv]⟩
      = some (Except.ok (Body.raw [1, 2, 3])) :=
  (c4_unrecognized_raw
    ⟨some "text/plain", none, none, none, "/w4",
      [StreamEvent.data [1, 2, 3], StreamEvent.endEv]⟩
    [1, 2, 3] rfl (by decide) (by decide)).1

/-- C5: content-type dispatch is a case-insensitive substring match tried
in fixed order — json first, then form-urlencoded, then the raw fallback —
with an absent header defaulting to the empty string; the substring test is
exactly occurrence of the lowercased pattern in the lowercased header. -/
theorem c5_dispatch (req : Request) (data : List Nat)
    (hstream : readBody req.stream [] = some (Except.ok data)) :
    (containsCI (ctStr req) "application/json" = true →
      addBody req = some (jsonBranch data)) ∧
    (containsCI (ctStr req) "application/json" = false →
      containsCI (ctStr req) "application/x-www-form-urlencoded" = true →
      addBody req = some (Except.ok (Body.form (parseQuerystring (bufToString data))))) ∧
    (containsCI (ctStr req) "application/json" = false →
      containsCI (ctStr req) "application/x-www-form-urlencoded" = false →
      addBody req = some (Except.ok (Body.raw data))) ∧
    (req.contentType = none → ctStr req = "") ∧
    (∀ ct pat : String, containsCI ct pat = true ↔
      ∃ l r, lowerChars ct.toList = l ++ (lowerChars pat.toList ++ r)) := by
  refine ⟨?_, ?_, ?_, ?_, fun ct pat => containsCI_iff ct pat⟩
  · intro hj
    unfold addBody
    rw [hstream]
    simp [decodeBody, hj]
  · intro hj hf
    unfold addBody
    rw [hstream]
    simp [decodeBody, hj, hf]
  · intro hj hf
    unfold addBody
    rw [hstream]
    simp [decodeBody, hj, hf]
  · intro h
    simp [ctStr, h]

/-- C5 witness: a content type containing both patterns (form-urlencoded
even listed first) is decoded as JSON — the json rule wins. -/
theorem c5_witness :
    addBody ⟨some "application/x-www-form-urlencoded; application/json", none, none, none,
        "/w5", [StreamEvent.data [49], StreamEvent.endEv]⟩
      = some (Except.ok (Body.json (JsValue.num "1"))) := by
  have h := (c5_dispatch
    ⟨some "application/x-www-form-urlencoded; application/json", none, none, none,
      "/w5", [StreamEvent.data [49], StreamEvent.endEv]⟩
    [49] rfl).1 (by decide)
  exact h.trans (by rfl)

/-- C6: a form-urlencoded (and not json) request always resolves — with the
buffer UTF-8-decoded and parsed by the permissive querystring parser; the
concrete conjuncts exhibit percent-decoding of values, repeated keys
collected into a list, and a thoroughly malformed payload (bad escape,
empty segments, empty key, missing `=`, `+` for space) still yielding a
mapping rather than a failure. -/
theorem c6_form_urlencoded (req : Request) (data : List Nat)
    (hstream : readBody req.stream [] = some (Except.ok data))
    (hj : containsCI (ctStr req) "application/json" = false)
    (hf : containsCI (ctStr req) "application/x-www-form-urlencoded" = true) :
    addBody req = some (Except.ok (Body.form (parseQuerystring (bufToString data)))) ∧
    parseQuerystring "a=hello%20world" = [("a", QsVal.one "hello world")] ∧
    parseQuerystring "a=1&a=2&b=3" = [("a", QsVal.many ["1", "2"]), ("b", QsVal.one "3")] ∧
    parseQuerystring "%zz=1&&&=x&novalue&a+b=c%2Bd" =
      [("%zz", QsVal.one "1"), ("", QsVal.one "x"), ("novalue", QsVal.one ""),
        ("a b", QsVal.one "c+d")] := by
  refine ⟨?_, by rfl, by rfl, by rfl⟩
  unfold addBody
  rw [hstream]
  simp [decodeBody, hj, hf]

/-- C6 witness: body `a=1&a=2` under the form content type resolves with
the repeated key collected into a list. -/
theorem c6_witness :
    addBody ⟨some "application/x-www-form-urlencoded", none, none, none, "/w6",
        [StreamEvent.data [97, 61, 49, 38, 97, 61, 50], StreamEvent.endEv]⟩
      = some (Except.ok (Body.form [("a", QsVal.many ["1", "2"])])) := by
  have h := (c6_form_urlencoded
    ⟨some "application/x-www-form-urlencoded", none, none, none, "/w6",
      [StreamEvent.data [97, 61, 49, 38, 97, 61, 50], StreamEvent.endEv]⟩
    [97, 61, 49, 38, 97, 61, 50] rfl (by decide) (by decide)).1
  exact h.trans (by rfl)

/-- The accept-header test of `addXhr` gives the same boolean whether the
absent header is modelled as the JavaScript coercion string "undefined"
(what the code does) or as the empty string (how the spec reads it):
neither contains "text/html". -/
theorem acceptCoerced_contains (req : Request) :
    containsSubstr (acceptCoerced req) "text/html"
      = containsSubstr (req.accept.getD "") "text/html" := by
  cases ha : req.accept with
  | none => simp [acceptCoerced, ha]; decide
  | some a => simp [acceptCoerced, ha]

/-- C7: `addXhr` is true exactly when the x-requested-with header equals
"XMLHttpRequest", or the raw URL ends with ".json", or the accept header
(empty when absent) does not contain "text/html". -/
theorem c7_xhr_iff (req : Request) :
    addXhr req = true ↔
      (req.xRequestedWith = some "XMLHttpRequest" ∨
       (∃ pre, req.url.toList = pre ++ ['.', 'j', 's', 'o', 'n']) ∨
       containsSubstr (req.accept.getD "") "text/html" = false) := by
  unfold addXhr
  rw [acceptCoerced_contains]
  simp only [Bool.or_eq_true, beq_iff_eq, Bool.not_eq_true', endsWithDotJson_iff]
  exact or_assoc

/-- C8: cookie parsing — absent header gives the empty mapping; the header
splits on `;` followed by optional whitespace; each segment splits at its
first `=` with the value percent-decoded; list-valued headers are joined
with `;` first; and on duplicate names the last occurrence wins. -/
theorem c8_cookie_parsing :
    (∀ req : Request, req.cookie = none → addCookies req = some []) ∧
    addCookies ⟨none, none, none, some (HeaderValue.one "a=1; b=2"), "/c1", []⟩
      = some [("a", "1"), ("b", "2")] ∧
    addCookies ⟨none, none, none, some (HeaderValue.one "a=hello%20world"), "/c2", []⟩
      = some [("a", "hello world")] ∧
    addCookies ⟨none, none, none, some (HeaderValue.many ["a=1", "b=2"]), "/c3", []⟩
      = some [("a", "1"), ("b", "2")] ∧
    addCookies ⟨none, none, none, some (HeaderValue.one "a=1; a=2"), "/c4", []⟩
      = some [("a", "2")] ∧
    addCookies ⟨none, none, none, some (HeaderValue.one "a=b=c;x=1;  y=2"), "/c5", []⟩
      = some [("a", "b=c"), ("x", "1"), ("y", "2")] := by
  refine ⟨?_, by rfl, by rfl, by rfl, by rfl, by rfl⟩
  intro req h
  simp [addCookies, cookieHeaderStr, h]

/-- C8 witness: a request without a cookie header parses to the empty
mapping. -/
theorem c8_witness :
    addCookies ⟨none, none, none, none, "/w8", []⟩ = some [] :=
  c8_cookie_parsing.1 ⟨none, none, none, none, "/w8", []⟩ rfl

/-- C10 counterexample: the segment `b%` contains no `=`, yet `addCookies`
stores no entry for it — `decodeURIComponent` of the whole segment throws
(modelled by `none`), so the call produces no mapping at all. -/
theorem c10_counterexample :
    addCookies ⟨none, none, none, some (HeaderValue.one "b%"), "/w10c", []⟩ = none := by
  rfl

/-- Splitting a character list with no `;` yields a single segment. -/
theorem splitSemiAux_no_semi :
    ∀ (cs acc : List Char), (∀ c ∈ cs, c ≠ ';') →
      splitSemiAux false cs acc = [acc.reverse ++ cs]
  | [], acc, _ => by simp [splitSemiAux]
  | c :: rest, acc, h => by
    have hc : ¬(c == ';') = true := by
      simp only [beq_iff_eq]
      exact h c (List.mem_cons_self _ _)
    have hrest : ∀ d ∈ rest, d ≠ ';' := fun d hd => h d (List.mem_cons_of_mem _ hd)
    simp only [splitSemiAux, Bool.false_and, Bool.false_eq_true, if_false, hc]
    rw [splitSemiAux_no_semi rest (c :: acc) hrest]
    simp

/-- Splitting a string with no `;` yields that single string. -/
theorem splitSemiWs_single (s : String) (h : ';' ∉ s.toList) : splitSemiWs s = [s] := by
  unfold splitSemiWs
  rw [splitSemiAux_no_semi s.toList [] (fun c hc he => h (he ▸ hc))]
  simp [mk_toList]

/-- On a string with no `=`, `indexOf('=')` is `-1`. -/
theorem jsIndexOfChar_eq_neg_one (s : String) (h : '=' ∉ s.toList) :
    jsIndexOfChar s '=' = -1 := by
  unfold jsIndexOfChar
  rw [List.findIdx?_eq_none_iff.mpr]
  intro x hx
  simp only [beq_eq_false_iff_ne]
  rintro rfl
  exact h hx

/-- `slice(0, -1)` on a nonempty string drops its last character. -/
theorem jsSlice_zero_neg_one (s : String) (h : s.toList ≠ []) :
    jsSlice s 0 (-1) = String.mk s.toList.dropLast := by
  unfold jsSlice jsSliceIdx
  have hlen : 0 < s.toList.length := List.length_pos.mpr h
  have ha : (max 0 (if (0 : Int) < 0 then (s.toList.length : Int) + 0
      else min 0 (s.toList.length : Int))).toNat = 0 := by
    simp
  have hb : (max 0 (if (-1 : Int) < 0 then (s.toList.length : Int) + -1
      else min (-1) (s.toList.length : Int))).toNat = s.toList.length - 1 := by
    rw [if_pos (by omega)]
    omega
  dsimp only
  rw [ha, hb]
  simp [List.dropLast_eq_take]

/-- `slice(0)` returns the whole string. -/
theorem jsSliceFrom_zero (s : String) : jsSliceFrom s 0 = s := by
  unfold jsSliceFrom jsSliceIdx
  have ha : (max 0 (if (0 : Int) < 0 then (s.toList.length : Int) + 0
      else min 0 (s.toList.length : Int))).toNat = 0 := by
    simp
  dsimp only
  rw [ha]
  simp [mk_toList]

/-- C10 amended: for a nonempty cookie segment without `=` whose
percent-decoding succeeds, the stored entry's key is the segment with its
last character removed (the `slice(0, -1)` of `indexOf` returning `-1`)
and its value is the decoding of the entire segment; when the decoding
fails, `addCookies` instead throws and stores nothing (see the
counterexample). -/
theorem c10_no_eq_segment (s d : String)
    (hne : s ≠ "")
    (heq : '=' ∉ s.toList)
    (hsemi : ';' ∉ s.toList)
    (hdec : decodeURIComponent s = some d) :
    cookiePair s = some (String.mk s.toList.dropLast, d) ∧
    addCookies ⟨none, none, none, some (HeaderValue.one s), "/w10", []⟩
      = some [(String.mk s.toList.dropLast, d)] := by
  have hidx : jsIndexOfChar s '=' = -1 := jsIndexOfChar_eq_neg_one s heq
  have hpair : cookiePair s = some (String.mk s.toList.dropLast, d) := by
    unfold cookiePair
    dsimp only
    rw [hidx, jsSlice_zero_neg_one s (toList_ne_nil s hne),
      show (-1 : Int) + 1 = 0 by decide, jsSliceFrom_zero, hdec]
    rfl
  refine ⟨hpair, ?_⟩
  unfold addCookies cookieHeaderStr
  dsimp only
  rw [show (s == "") = false from beq_eq_false_iff_ne.mpr hne]
  simp only [Bool.false_eq_true, if_false, splitSemiWs_single s hsemi,
    List.foldlM_cons, List.foldlM_nil, hpair]
  rfl

/-- C10 witness: the equals-free segment `ab%20` stores the entry whose
key drops the final character and whose value decodes the whole segment. -/
theorem c10_witness :
    addCookies ⟨none, none, none, some (HeaderValue.one "ab%20"), "/w10", []⟩
      = some [("ab%2", "ab ")] := by
  have h := (c10_no_eq_segment "ab%20" "ab " (by decide) (by decide) (by decide) rfl).2
  exact h.trans (by rfl)

end HttpExtend
